import Mathlib

/-!
# SoftwareRasterizer: a shallow embedding of `rasterizer.hpp`

The embedding follows `src/src/rasterizer.hpp` and the user types of
`src/example/main.cpp`.

Conventions of the embedding.

* `float` is the field `ℚ`: arithmetic is exact, there is no rounding and there
  are no non-finite values.  The perspective divide by a zero `w` is outside the
  model; the statements about `RasterizeTriangle` therefore carry the hypothesis
  that the three `w` components are non-zero.
* The quotient by the frame size in `ssc` is evaluated inside the pixel loops
  only, where width and height are positive.
* The remaining quotient is `invdet = 1 / determinant` in `Matrix2f.inverse`.
  For a singular matrix IEEE arithmetic gives an infinite `invdet`, every entry
  of the inverse is then infinite or NaN and so is every weight computed from
  it, and such a weight fails one of the two comparisons of the inside test.
  Here `1 / 0 = 0`, the weights of a singular triangle are `(0, 0, 1)` and fail
  the inside test as well (`bary_degenerate`, `inside_det_ne_zero`): in both
  readings no pixel of a zero-area triangle passes the inside test.
* `std::size_t` is `ℕ` and `int` is `ℤ`, both without wrap-around; the
  conversions between them and `cast<int>()` are taken on values in range.
* `std::vector<PixelType>` is `List PixelType`; element access outside the
  vector is undefined behaviour in the source and is `none` here.
* Pointer ranges (vertex buffer, index buffer, vertex-out array, cache) are
  lists.  `Rasterize` and `draw` end in an `Outcome`: `done`, or `undefined` at
  the first access outside an array, with the framebuffer reached there.  The
  source raises no error anywhere, so `Outcome` has no error case.
* The template parameters `Pixel` and `VertexVsOut` are type classes listing the
  members the templates use.
-/

namespace SoftwareRasterizer

/-! ## Eigen value types -/

/-- The type `Eigen::Vector2f` (also used for `Eigen::Array2f`). -/
structure Vector2f where
  x : ℚ
  y : ℚ
deriving DecidableEq

/-- The type `Eigen::Vector3f`. -/
structure Vector3f where
  x : ℚ
  y : ℚ
  z : ℚ
deriving DecidableEq

/-- The type `Eigen::Vector4f`; `w` is the component of index 3. -/
structure Vector4f where
  x : ℚ
  y : ℚ
  z : ℚ
  w : ℚ
deriving DecidableEq

/-- The type `Eigen::Array2i`. -/
structure Array2i where
  x : ℤ
  y : ℤ
deriving DecidableEq

/-- The type `Eigen::Matrix2f`, `mij` being the coefficient of row `i`, column `j`. -/
structure Matrix2f where
  m00 : ℚ
  m01 : ℚ
  m10 : ℚ
  m11 : ℚ
deriving DecidableEq

/-- The determinant `Matrix2f::determinant()`. -/
def Matrix2f.determinant (T : Matrix2f) : ℚ :=
  T.m00 * T.m11 - T.m01 * T.m10

/-- The inverse `Matrix2f::inverse()`: Eigen's closed form for size 2, the adjugate
multiplied by `invdet = 1 / determinant`. -/
def Matrix2f.inverse (T : Matrix2f) : Matrix2f :=
  let invdet : ℚ := 1 / T.determinant
  { m00 := T.m11 * invdet
    m10 := -T.m10 * invdet
    m01 := -T.m01 * invdet
    m11 := T.m00 * invdet }

/-- The product `Matrix2f * Vector2f`. -/
def Matrix2f.mulVec (M : Matrix2f) (v : Vector2f) : Vector2f :=
  ⟨M.m00 * v.x + M.m01 * v.y, M.m10 * v.x + M.m11 * v.y⟩

/-- The difference of two `Vector2f`. -/
def Vector2f.sub (a b : Vector2f) : Vector2f := ⟨a.x - b.x, a.y - b.y⟩

/-- Coefficient-wise minimum `a.min(b)` of two arrays. -/
def Vector2f.min (a b : Vector2f) : Vector2f := ⟨Min.min a.x b.x, Min.min a.y b.y⟩

/-- Coefficient-wise maximum `a.max(b)` of two arrays. -/
def Vector2f.max (a b : Vector2f) : Vector2f := ⟨Max.max a.x b.x, Max.max a.y b.y⟩

/-- The quotient `Vector4f / float`: every component is divided. -/
def Vector4f.divScalar (p : Vector4f) (s : ℚ) : Vector4f :=
  ⟨p.x / s, p.y / s, p.z / s, p.w / s⟩

/-- The segment `head<2>()` of a `Vector4f`. -/
def Vector4f.head2 (p : Vector4f) : Vector2f := ⟨p.x, p.y⟩

/-- The conversion `cast<int>()` of a `float`: truncation toward zero. -/
def castInt (q : ℚ) : ℤ := if 0 ≤ q then ⌊q⌋ else ⌈q⌉

/-! ## Framebuffer -/

/-- The class `Framebuffer<PixelType>`: the pixel vector and the two constant sizes. -/
structure Framebuffer (PixelType : Type) where
  data : List PixelType
  width : ℕ
  height : ℕ
deriving DecidableEq

namespace Framebuffer

variable {PixelType : Type}

/-- The constructor `Framebuffer(w, h)`: `data(w*h)` holds `w*h` value-initialised pixels. -/
def construct [Inhabited PixelType] (w h : ℕ) : Framebuffer PixelType :=
  { data := List.replicate (w * h) default, width := w, height := h }

/-- The position `y*width+x` used by `operator()`. -/
def index (fb : Framebuffer PixelType) (x y : ℕ) : ℕ := y * fb.width + x

/-- Reading through `operator()(x, y)`, that is `data[y*width+x]`; `none` when the
position is outside the vector. -/
def read (fb : Framebuffer PixelType) (x y : ℕ) : Option PixelType :=
  fb.data[fb.index x y]?

/-- Assigning through the reference returned by `operator()(x, y)`; `none` when the
position is outside the vector. -/
def write (fb : Framebuffer PixelType) (x y : ℕ) (v : PixelType) :
    Option (Framebuffer PixelType) :=
  if fb.index x y < fb.data.length then
    some { fb with data := fb.data.set (fb.index x y) v }
  else none

/-- The method `clear(pt)`: `std::fill(data.begin(), data.end(), pt)`. -/
def clear (fb : Framebuffer PixelType) (pt : PixelType) : Framebuffer PixelType :=
  { fb with data := fb.data.map (fun _ => pt) }

/-- The size invariant of the class: the vector holds `width * height` pixels. -/
def WellFormed (fb : Framebuffer PixelType) : Prop :=
  fb.data.length = fb.width * fb.height

instance (fb : Framebuffer PixelType) : Decidable fb.WellFormed := by
  unfold WellFormed; infer_instance

end Framebuffer

/-! ## Template parameters -/

/-- What `RasterizeTriangle` uses of its `Pixel` parameter: the accessor
`depth()`, which returns a reference to the depth stored in the pixel.  The
reference is read (`depth`) and assigned through (`setDepth`); reading after an
assignment gives the assigned value. -/
class Pixel (P : Type) where
  depth : P → ℚ
  setDepth : P → ℚ → P
  depth_setDepth : ∀ (p : P) (d : ℚ), depth (setDepth p d) = d

/-- What `RasterizeTriangle` uses of its `VertexVsOut` parameter: the default
constructor, `position()`, `operator*=` and `operator+=`. -/
class VertexVsOut (V : Type) where
  init : V
  position : V → Vector4f
  mulAssign : V → ℚ → V
  addAssign : V → V → V

/-! ## BarycentricTransform -/

/-- The struct `BarycentricTransform`: its two private members. -/
structure BarycentricTransform where
  offset : Vector2f
  Ti : Matrix2f
deriving DecidableEq

/-- The local matrix `T` of the constructor, filled by `T << (s1-s3),(s2-s3)`: its
columns are `s1-s3` and `s2-s3`. -/
def BarycentricTransform.T (s1 s2 s3 : Vector2f) : Matrix2f :=
  { m00 := (s1.sub s3).x, m01 := (s2.sub s3).x
    m10 := (s1.sub s3).y, m11 := (s2.sub s3).y }

/-- The constructor `BarycentricTransform(s1, s2, s3)`: `offset(s3)` and
`Ti = T.inverse()`. -/
def BarycentricTransform.construct (s1 s2 s3 : Vector2f) : BarycentricTransform :=
  { offset := s3, Ti := (BarycentricTransform.T s1 s2 s3).inverse }

/-- The call operator `BarycentricTransform::operator()(v)`. -/
def BarycentricTransform.apply (bt : BarycentricTransform) (v : Vector2f) : Vector3f :=
  let b : Vector2f := bt.Ti.mulVec (v.sub bt.offset)
  ⟨b.x, b.y, 1 - b.x - b.y⟩

/-! ## RasterizeTriangle -/

/-- The counting loop `for (int i = lo; i < lo + n; i++) body(i)` over a state,
stopping at the first iteration whose behaviour is undefined. -/
def forLoop {σ : Type} (body : ℤ → σ → Option σ) : ℕ → ℤ → σ → Option σ
  | 0, _, s => some s
  | n + 1, lo, s =>
    match body lo s with
    | none => none
    | some s1 => forLoop body n (lo + 1) s1

/-- The array `screenPoints`: the perspective divide of the three positions by `w`. -/
def screenPoint {V : Type} [VertexVsOut V] (v : V) : Vector4f :=
  (VertexVsOut.position v).divScalar (VertexVsOut.position v).w

/-- The array `frameSize`: width and height converted to `int`. -/
def frameSize {P : Type} (fb : Framebuffer P) : Array2i :=
  ⟨(fb.width : ℤ), (fb.height : ℤ)⟩

/-- The bounding-box conversion `((c*0.5f+0.5f)*frameSize.cast<float>()).cast<int>()`. -/
def toFixed (fs : Array2i) (c : Vector2f) : Array2i :=
  ⟨castInt ((c.x * (1 / 2) + 1 / 2) * (fs.x : ℚ)), castInt ((c.y * (1 / 2) + 1 / 2) * (fs.y : ℚ))⟩

/-- The corner `fixedTopLeft` after the clamp `max(Array2i(0,0))`. -/
def fixedTopLeft (fs : Array2i) (ss1 ss2 ss3 : Vector2f) : Array2i :=
  let topLeft := (ss1.min ss2).min ss3
  let f := toFixed fs topLeft
  ⟨Max.max f.x 0, Max.max f.y 0⟩

/-- The corner `fixedBottomRight` after `+=1` and the clamp `min(frameSize)`. -/
def fixedBottomRight (fs : Array2i) (ss1 ss2 ss3 : Vector2f) : Array2i :=
  let bottomRight := (ss1.max ss2).max ss3
  let f := toFixed fs bottomRight
  ⟨Min.min (f.x + 1) fs.x, Min.min (f.y + 1) fs.y⟩

/-- The point `ssc` of the pixel `(x, y)`: divided by the frame size, minus `0.5f`,
times `2.0f`. -/
def ssc (fs : Array2i) (x y : ℤ) : Vector2f :=
  ⟨((x : ℚ) / (fs.x : ℚ) - 1 / 2) * 2, ((y : ℚ) / (fs.y : ℚ) - 1 / 2) * 2⟩

/-- The inside test `(bary.array() < 1.0f).all() && (bary.array() > 0.0f).all()`. -/
def inside (bary : Vector3f) : Prop :=
  (bary.x < 1 ∧ bary.y < 1 ∧ bary.z < 1) ∧ (bary.x > 0 ∧ bary.y > 0 ∧ bary.z > 0)

instance (bary : Vector3f) : Decidable (inside bary) := by
  unfold inside; infer_instance

/-- The interpolated `depth`: the weighted sum of the three screen-space `z`. -/
def interpDepth (bary : Vector3f) (sp0 sp1 sp2 : Vector4f) : ℚ :=
  bary.x * sp0.z + bary.y * sp1.z + bary.z * sp2.z

/-- The interpolated varying `v`: starting from a default-constructed value, each
vertex is copied, scaled by its weight with `*=` and accumulated with `+=`. -/
def interpolate {V : Type} [VertexVsOut V] (bary : Vector3f) (v0 v1 v2 : V) : V :=
  let v := VertexVsOut.init
  let v := VertexVsOut.addAssign v (VertexVsOut.mulAssign v0 bary.x)
  let v := VertexVsOut.addAssign v (VertexVsOut.mulAssign v1 bary.y)
  VertexVsOut.addAssign v (VertexVsOut.mulAssign v2 bary.z)

/-- The barycentric weights of the pixel `(x, y)` for the triangle `verts`. -/
def pixelBary {V : Type} [VertexVsOut V] (fs : Array2i) (v0 v1 v2 : V) (x y : ℤ) :
    Vector3f :=
  (BarycentricTransform.construct (screenPoint v0).head2 (screenPoint v1).head2
    (screenPoint v2).head2).apply (ssc fs x y)

/-- The body of the pixel loops of `RasterizeTriangle` for the pixel `(x, y)`. -/
def shadePixel {P V : Type} [Pixel P] [VertexVsOut V] (v0 v1 v2 : V) (fragmentShader : V → P)
    (x y : ℤ) (fb : Framebuffer P) : Option (Framebuffer P) :=
  let bary := pixelBary (frameSize fb) v0 v1 v2 x y
  if inside bary then
    let depth := interpDepth bary (screenPoint v0) (screenPoint v1) (screenPoint v2)
    match fb.read x.toNat y.toNat with
    | none => none
    | some candidatePixel =>
      if Pixel.depth candidatePixel < depth ∧ depth < 1 then
        let v := interpolate bary v0 v1 v2
        fb.write x.toNat y.toNat (Pixel.setDepth (fragmentShader v) depth)
      else some fb
  else some fb

/-- The function `RasterizeTriangle(framebuffer, verts, fragmentShader)`, the array
`verts` given by its three elements; the result is the framebuffer after the call. -/
def RasterizeTriangle {P V : Type} [Pixel P] [VertexVsOut V] (fb : Framebuffer P)
    (v0 v1 v2 : V) (fragmentShader : V → P) : Option (Framebuffer P) :=
  let ss1 := (screenPoint v0).head2
  let ss2 := (screenPoint v1).head2
  let ss3 := (screenPoint v2).head2
  let tl := fixedTopLeft (frameSize fb) ss1 ss2 ss3
  let br := fixedBottomRight (frameSize fb) ss1 ss2 ss3
  forLoop (fun y fb1 =>
      forLoop (fun x fb2 => shadePixel v0 v1 v2 fragmentShader x y fb2)
        (br.x - tl.x).toNat tl.x fb1)
    (br.y - tl.y).toNat tl.y fb

/-- The value the pixel loops leave in the cell `(x, y)` whose value was `old`:
the two tests and the assignment of `shadePixel`, on the cell alone. -/
def shadeValue {P V : Type} [Pixel P] [VertexVsOut V] (fs : Array2i) (v0 v1 v2 : V)
    (fragmentShader : V → P) (x y : ℤ) (old : P) : P :=
  let bary := pixelBary fs v0 v1 v2 x y
  let depth := interpDepth bary (screenPoint v0) (screenPoint v1) (screenPoint v2)
  if inside bary ∧ Pixel.depth old < depth ∧ depth < 1 then
    Pixel.setDepth (fragmentShader (interpolate bary v0 v1 v2)) depth
  else old

/-! ## The user types of `example/main.cpp` -/

/-- The struct `TeapotVertVsOut`. -/
structure TeapotVertVsOut where
  p : Vector4f
  color : Vector3f
deriving DecidableEq

instance : VertexVsOut TeapotVertVsOut where
  init := ⟨⟨0, 0, 0, 0⟩, ⟨0, 0, 0⟩⟩
  position v := v.p
  mulAssign v f := ⟨⟨v.p.x * f, v.p.y * f, v.p.z * f, v.p.w * f⟩,
    ⟨v.color.x * f, v.color.y * f, v.color.z * f⟩⟩
  addAssign v tp := ⟨⟨v.p.x + tp.p.x, v.p.y + tp.p.y, v.p.z + tp.p.z, v.p.w + tp.p.w⟩,
    ⟨v.color.x + tp.color.x, v.color.y + tp.color.y, v.color.z + tp.color.z⟩⟩

/-- The class `TeapotPixel`; `depth()` is the component of index 3 of `color`. -/
structure TeapotPixel where
  color : Vector4f
deriving DecidableEq

instance : Inhabited TeapotPixel := ⟨⟨⟨0, 0, 0, -10000000000⟩⟩⟩

instance : Pixel TeapotPixel where
  depth px := px.color.w
  setDepth px d := ⟨{ px.color with w := d }⟩
  depth_setDepth _ _ := rfl

/-- The function `fragmentShader` of the example. -/
def fragmentShader (fsin : TeapotVertVsOut) : TeapotPixel :=
  let p : TeapotPixel := default
  ⟨{ p.color with x := fsin.color.x, y := fsin.color.y, z := fsin.color.z }⟩

/-- The matrix type `Eigen::Matrix4f`, given by its four rows. -/
structure Matrix4f where
  r0 : Vector4f
  r1 : Vector4f
  r2 : Vector4f
  r3 : Vector4f
deriving DecidableEq

/-- The product `Matrix4f * Vector4f`. -/
def Matrix4f.mulVec (M : Matrix4f) (v : Vector4f) : Vector4f :=
  ⟨M.r0.x * v.x + M.r0.y * v.y + M.r0.z * v.z + M.r0.w * v.w,
    M.r1.x * v.x + M.r1.y * v.y + M.r1.z * v.z + M.r1.w * v.w,
    M.r2.x * v.x + M.r2.y * v.y + M.r2.z * v.z + M.r2.w * v.w,
    M.r3.x * v.x + M.r3.y * v.y + M.r3.z * v.z + M.r3.w * v.w⟩

/-- The matrix `Eigen::Matrix4f::Identity()`. -/
def Matrix4f.Identity : Matrix4f :=
  ⟨⟨1, 0, 0, 0⟩, ⟨0, 1, 0, 0⟩, ⟨0, 0, 1, 0⟩, ⟨0, 0, 0, 1⟩⟩

/-- The function `vertexShader` of the example; `TeapotVert` is `Eigen::Vector3f`. -/
def vertexShader (vertexIn : Vector3f) (mvp : Matrix4f) (_t : ℚ) : TeapotVertVsOut :=
  { p := mvp.mulVec ⟨vertexIn.x, vertexIn.y, vertexIn.z, 1⟩, color := ⟨1, 0, 0⟩ }

/-! ## RunVertexShader, Rasterize and draw

The two `#pragma omp parallel for` loops are run sequentially, in the order of the loop
variable. -/

/-- The access outside an array at which the behaviour of a call becomes undefined: a read
of the index buffer at a position, a read of the vertex-out array at an index, a write of
`RunVertexShader` outside its output array, or a pixel access outside the framebuffer
storage. -/
inductive Fault where
  | indexRead (position : ℕ)
  | vertexRead (index : ℕ)
  | outputWrite
  | pixelAccess
deriving DecidableEq

/-- How a call of `Rasterize` or `draw` ends: `done` with the framebuffer after the call, or
`undefined` at an access outside an array, with the framebuffer reached at that access. -/
inductive Outcome (P : Type) where
  | done (fb : Framebuffer P)
  | undefined (fault : Fault) (fb : Framebuffer P)
deriving DecidableEq

/-- The framebuffer a call has produced when it ends or when its behaviour becomes
undefined. -/
def Outcome.framebuffer {P : Type} : Outcome P → Framebuffer P
  | .done fb => fb
  | .undefined _ fb => fb

/-- The loop of `RunVertexShader` from position `i` on: `pOutput[i]=vertexShader(pBegin[i])`
for the remaining inputs; `none` when a write is outside `pOutput`. -/
def runVertexShaderFrom {VIn V : Type} (vertexShader : VIn → V) :
    List VIn → ℕ → List V → Option (List V)
  | [], _, pOutput => some pOutput
  | v :: rest, i, pOutput =>
    if i < pOutput.length then
      runVertexShaderFrom vertexShader rest (i + 1) (pOutput.set i (vertexShader v))
    else none

/-- The function `RunVertexShader(pBegin, pEnd, pOutput, vertexShader)`: the input range is
a list and the result is the output array after the call. -/
def RunVertexShader {VIn V : Type} (input : List VIn) (pOutput : List V)
    (vertexShader : VIn → V) : Option (List V) :=
  runVertexShaderFrom vertexShader input 0 pOutput

/-- The body of the loop of `Rasterize` for the loop variable `i`: the reads `ti[0]`,
`verts[ti[0]]`, `ti[1]`, `verts[ti[1]]`, `ti[2]`, `verts[ti[2]]` of the initializer of
`tri`, then `RasterizeTriangle`. -/
def rasterizeStep {P V : Type} [Pixel P] [VertexVsOut V] (indexBuffer : List ℕ)
    (verts : List V) (fragmentShader : V → P) (i : ℕ) (fb : Framebuffer P) : Outcome P :=
  match indexBuffer[i]? with
  | none => .undefined (.indexRead i) fb
  | some a =>
    match verts[a]? with
    | none => .undefined (.vertexRead a) fb
    | some v0 =>
      match indexBuffer[i + 1]? with
      | none => .undefined (.indexRead (i + 1)) fb
      | some b =>
        match verts[b]? with
        | none => .undefined (.vertexRead b) fb
        | some v1 =>
          match indexBuffer[i + 2]? with
          | none => .undefined (.indexRead (i + 2)) fb
          | some c =>
            match verts[c]? with
            | none => .undefined (.vertexRead c) fb
            | some v2 =>
              match RasterizeTriangle fb v0 v1 v2 fragmentShader with
              | none => .undefined .pixelAccess fb
              | some fb1 => .done fb1

/-- The iterations of `for(std::size_t i=...;i<n;i+=3)` from the value `i` of the loop
variable, `count` of them. -/
def rasterizeLoop {P V : Type} [Pixel P] [VertexVsOut V] (indexBuffer : List ℕ)
    (verts : List V) (fragmentShader : V → P) : ℕ → ℕ → Framebuffer P → Outcome P
  | 0, _, fb => .done fb
  | count + 1, i, fb =>
    match rasterizeStep indexBuffer verts fragmentShader i fb with
    | .undefined f fb1 => .undefined f fb1
    | .done fb1 => rasterizeLoop indexBuffer verts fragmentShader count (i + 3) fb1

/-- The function `Rasterize(framebuffer, indexBufferBegin, indexBufferEnd, verts,
fragmentShader)`.  With `n` the length of the index buffer, the loop
`for(std::size_t i=0;i<n;i+=3)` makes one iteration for each of `i = 0, 3, 6, ...` below
`n`, that is `(n + 2) / 3` iterations. -/
def Rasterize {P V : Type} [Pixel P] [VertexVsOut V] (fb : Framebuffer P)
    (indexBuffer : List ℕ) (verts : List V) (fragmentShader : V → P) : Outcome P :=
  rasterizeLoop indexBuffer verts fragmentShader ((indexBuffer.length + 2) / 3) 0 fb

/-- The function `draw`.  The range `[vCacheBegin, vCacheEnd)` is `none` for a `NULL`
`vCacheBegin` and the caller's array otherwise.  The result is the outcome of `Rasterize`
and the caller's cache after the call. -/
def draw {P V VIn : Type} [Pixel P] [VertexVsOut V] (fb : Framebuffer P)
    (vertexBuffer : List VIn) (indexBuffer : List ℕ) (vCache : Option (List V))
    (vertexShader : VIn → V) (fragmentShader : V → P) : Outcome P × Option (List V) :=
  match vCache with
  | some cache =>
    if cache.length ≠ vertexBuffer.length then
      match RunVertexShader vertexBuffer
          (List.replicate vertexBuffer.length (VertexVsOut.init : V)) vertexShader with
      | none => (.undefined .outputWrite fb, some cache)
      | some out => (Rasterize fb indexBuffer out fragmentShader, some cache)
    else
      match RunVertexShader vertexBuffer cache vertexShader with
      | none => (.undefined .outputWrite fb, some cache)
      | some out => (Rasterize fb indexBuffer out fragmentShader, some out)
  | none =>
    match RunVertexShader vertexBuffer
        (List.replicate vertexBuffer.length (VertexVsOut.init : V)) vertexShader with
    | none => (.undefined .outputWrite fb, none)
    | some out => (Rasterize fb indexBuffer out fragmentShader, none)

/-! ## Definitions used to state the claims -/

/-- The mapping of step 3 from normalized device space to pixel space,
`pixel = (ndc * 0.5 + 0.5) * (width, height)`: the argument of `cast<int>()` in `toFixed`. -/
def toPixelSpace (fs : Array2i) (c : Vector2f) : Vector2f :=
  ⟨(c.x * (1 / 2) + 1 / 2) * (fs.x : ℚ), (c.y * (1 / 2) + 1 / 2) * (fs.y : ℚ)⟩

/-- The relation between the value `old` of a cell before a call and its value `new`
after it that depth monotonicity asserts: the depth has not decreased, and a changed value
has a strictly greater depth, which is below 1. -/
def depthGrows {P : Type} [Pixel P] (old new : P) : Prop :=
  Pixel.depth old ≤ Pixel.depth new ∧
    (new ≠ old → Pixel.depth old < Pixel.depth new ∧ Pixel.depth new < 1)

/-- The relation `depthGrows` on every cell of two framebuffers of the same sizes, the
second of which satisfies the size invariant. -/
def Framebuffer.DepthGrows {P : Type} [Pixel P] (fb fb1 : Framebuffer P) : Prop :=
  fb1.WellFormed ∧ fb1.width = fb.width ∧ fb1.height = fb.height ∧
    ∀ x y, x < fb.width → y < fb.height →
      ∃ old new, fb.read x y = some old ∧ fb1.read x y = some new ∧ depthGrows old new

/-- A framebuffer of 2 by 2 pixels as constructed for `TeapotPixel`. -/
def smallFramebuffer : Framebuffer TeapotPixel := Framebuffer.construct 2 2

/-- First vertex of a red triangle in the plane `z = 0`, with `w = 1`. -/
def redVert0 : TeapotVertVsOut := ⟨⟨2, -2, 0, 1⟩, ⟨1, 0, 0⟩⟩

/-- Second vertex of the red triangle. -/
def redVert1 : TeapotVertVsOut := ⟨⟨-2, 2, 0, 1⟩, ⟨1, 0, 0⟩⟩

/-- Third vertex of the red triangle. -/
def redVert2 : TeapotVertVsOut := ⟨⟨-2, -2, 0, 1⟩, ⟨1, 0, 0⟩⟩

/-- First vertex of a blue triangle in the plane `z = 1/2`, above the green one. -/
def blueVert0 : TeapotVertVsOut := ⟨⟨1, -2, 1 / 2, 1⟩, ⟨0, 0, 1⟩⟩

/-- Second vertex of the blue triangle. -/
def blueVert1 : TeapotVertVsOut := ⟨⟨-2, 1, 1 / 2, 1⟩, ⟨0, 0, 1⟩⟩

/-- Third vertex of the blue triangle. -/
def blueVert2 : TeapotVertVsOut := ⟨⟨-2, -2, 1 / 2, 1⟩, ⟨0, 0, 1⟩⟩

/-- The framebuffer `tp` of a 4 by 4 example, as constructed. -/
def scenarioFramebuffer : Framebuffer TeapotPixel := Framebuffer.construct 4 4

/-- The vertex shader bound as in `main`: `cameraMatrix` is the identity and `time` is 0. -/
def scenarioShader (vertexIn : Vector3f) : TeapotVertVsOut :=
  vertexShader vertexIn Matrix4f.Identity 0

/-- The vertex buffer `triangle` of `main`: two triangles, six vertices. -/
def mainVertices : List Vector3f :=
  [⟨-1 / 2, -1 / 2, 0⟩, ⟨1 / 2, -1 / 2, 0⟩, ⟨0, 1 / 2, 0⟩,
    ⟨0, 0, 1 / 5⟩, ⟨1, 0, 1 / 5⟩, ⟨1 / 2, 1, 1 / 5⟩]

/-- The red triangle as a vertex-out array. -/
def redVerts : List TeapotVertVsOut := [redVert0, redVert1, redVert2]

/-- Six vertex-out values: the red triangle and the blue triangle. -/
def sixVerts : List TeapotVertVsOut :=
  [redVert0, redVert1, redVert2, blueVert0, blueVert1, blueVert2]

end SoftwareRasterizer

/-! ## Framebuffer: storage lemmas -/

namespace SoftwareRasterizer

namespace Framebuffer

variable {PixelType : Type}

theorem index_lt_size (fb : Framebuffer PixelType) {x y : ℕ}
    (hx : x < fb.width) (hy : y < fb.height) : fb.index x y < fb.width * fb.height := by
  unfold index
  calc y * fb.width + x < y * fb.width + fb.width := by omega
    _ = (y + 1) * fb.width := by ring
    _ ≤ fb.height * fb.width := Nat.mul_le_mul_right _ hy
    _ = fb.width * fb.height := Nat.mul_comm _ _

theorem index_injective (fb : Framebuffer PixelType) {x y x1 y1 : ℕ}
    (hx : x < fb.width) (hx1 : x1 < fb.width) (h : fb.index x y = fb.index x1 y1) :
    x = x1 ∧ y = y1 := by
  unfold index at h
  have hmod : (y * fb.width + x) % fb.width = (y1 * fb.width + x1) % fb.width := by rw [h]
  have hdiv : (y * fb.width + x) / fb.width = (y1 * fb.width + x1) / fb.width := by rw [h]
  have hpos : 0 < fb.width := by omega
  rw [Nat.mul_comm y, Nat.mul_comm y1, Nat.mul_add_mod, Nat.mul_add_mod,
    Nat.mod_eq_of_lt hx, Nat.mod_eq_of_lt hx1] at hmod
  rw [Nat.mul_comm y, Nat.mul_comm y1, Nat.mul_add_div hpos, Nat.mul_add_div hpos,
    Nat.div_eq_of_lt hx, Nat.div_eq_of_lt hx1] at hdiv
  exact ⟨hmod, by omega⟩

theorem read_isSome (fb : Framebuffer PixelType) (hwf : fb.WellFormed) {x y : ℕ}
    (hx : x < fb.width) (hy : y < fb.height) : ∃ p, fb.read x y = some p := by
  have hlt : fb.index x y < fb.data.length := by
    rw [hwf]; exact fb.index_lt_size hx hy
  exact ⟨fb.data[fb.index x y], by simp [read, List.getElem?_eq_getElem hlt]⟩

theorem write_eq_some (fb : Framebuffer PixelType) (hwf : fb.WellFormed) {x y : ℕ}
    (hx : x < fb.width) (hy : y < fb.height) (v : PixelType) :
    fb.write x y v = some { fb with data := fb.data.set (fb.index x y) v } := by
  have hlt : fb.index x y < fb.data.length := by
    rw [hwf]; exact fb.index_lt_size hx hy
  simp [write, hlt]

theorem read_set_same (fb : Framebuffer PixelType) (hwf : fb.WellFormed) {x y : ℕ}
    (hx : x < fb.width) (hy : y < fb.height) (v : PixelType) :
    read { fb with data := fb.data.set (fb.index x y) v } x y = some v := by
  have hlt : fb.index x y < fb.data.length := by
    rw [hwf]; exact fb.index_lt_size hx hy
  simp [read, index, List.getElem?_set]
  exact hlt

theorem read_set_other (fb : Framebuffer PixelType) {x y x1 y1 : ℕ}
    (hx : x < fb.width) (hx1 : x1 < fb.width) (hne : ¬ (x1 = x ∧ y1 = y)) (v : PixelType) :
    read { fb with data := fb.data.set (fb.index x y) v } x1 y1 = fb.read x1 y1 := by
  have hidx : fb.index x y ≠ fb.index x1 y1 := by
    intro h
    obtain ⟨h1, h2⟩ := fb.index_injective hx hx1 h
    exact hne ⟨h1.symm, h2.symm⟩
  simp only [read]
  show (fb.data.set (fb.index x y) v)[fb.index x1 y1]? = fb.data[fb.index x1 y1]?
  rw [List.getElem?_set_ne hidx]

end Framebuffer

end SoftwareRasterizer

/-! ## BarycentricTransform: the weights -/

namespace SoftwareRasterizer

theorem bary_sum (bt : BarycentricTransform) (v : Vector2f) :
    (bt.apply v).x + (bt.apply v).y + (bt.apply v).z = 1 := by
  simp only [BarycentricTransform.apply]; ring

theorem bary_combination (s1 s2 s3 v : Vector2f)
    (hdet : (BarycentricTransform.T s1 s2 s3).determinant ≠ 0) :
    v.x = ((BarycentricTransform.construct s1 s2 s3).apply v).x * s1.x
        + ((BarycentricTransform.construct s1 s2 s3).apply v).y * s2.x
        + ((BarycentricTransform.construct s1 s2 s3).apply v).z * s3.x ∧
    v.y = ((BarycentricTransform.construct s1 s2 s3).apply v).x * s1.y
        + ((BarycentricTransform.construct s1 s2 s3).apply v).y * s2.y
        + ((BarycentricTransform.construct s1 s2 s3).apply v).z * s3.y := by
  simp only [BarycentricTransform.T, Matrix2f.determinant, Vector2f.sub] at hdet
  simp only [BarycentricTransform.construct, BarycentricTransform.apply, BarycentricTransform.T,
    Matrix2f.inverse, Matrix2f.determinant, Matrix2f.mulVec, Vector2f.sub]
  constructor
  · field_simp
    ring
  · field_simp
    ring

/-- With a singular `T` the model's `invdet` is `0`, so the weights are `(0, 0, 1)`. -/
theorem bary_degenerate (s1 s2 s3 v : Vector2f)
    (hdet : (BarycentricTransform.T s1 s2 s3).determinant = 0) :
    (BarycentricTransform.construct s1 s2 s3).apply v = ⟨0, 0, 1⟩ := by
  simp [BarycentricTransform.construct, BarycentricTransform.apply, Matrix2f.inverse,
    Matrix2f.mulVec, hdet]

theorem inside_det_ne_zero (s1 s2 s3 v : Vector2f)
    (h : inside ((BarycentricTransform.construct s1 s2 s3).apply v)) :
    (BarycentricTransform.T s1 s2 s3).determinant ≠ 0 := by
  intro hdet
  rw [bary_degenerate s1 s2 s3 v hdet] at h
  simp [inside] at h

end SoftwareRasterizer

/-! ## RasterizeTriangle: the pixel loops -/

namespace SoftwareRasterizer

section Loops

variable {P V : Type} [Pixel P] [VertexVsOut V]

/-- One iteration of the pixel loops on an in-range pixel: it is defined, keeps the
sizes and the invariant, puts `shadeValue` of the old value in the cell `(x, y)` and
leaves every other cell of the same row range. -/
theorem shadePixel_spec (v0 v1 v2 : V) (fsh : V → P) (fb : Framebuffer P)
    (hwf : fb.WellFormed) {x y : ℕ} (hx : x < fb.width) (hy : y < fb.height) :
    ∃ old fb1, fb.read x y = some old ∧
      shadePixel v0 v1 v2 fsh (x : ℤ) (y : ℤ) fb = some fb1 ∧
      fb1.WellFormed ∧ fb1.width = fb.width ∧ fb1.height = fb.height ∧
      fb1.read x y = some (shadeValue (frameSize fb) v0 v1 v2 fsh x y old) ∧
      ∀ x1 y1, x1 < fb.width → ¬ (x1 = x ∧ y1 = y) → fb1.read x1 y1 = fb.read x1 y1 := by
  obtain ⟨old, hold⟩ := fb.read_isSome hwf hx hy
  by_cases hin : inside (pixelBary (frameSize fb) v0 v1 v2 x y)
  · by_cases hd : Pixel.depth old <
        interpDepth (pixelBary (frameSize fb) v0 v1 v2 x y) (screenPoint v0) (screenPoint v1)
          (screenPoint v2) ∧
        interpDepth (pixelBary (frameSize fb) v0 v1 v2 x y) (screenPoint v0) (screenPoint v1)
          (screenPoint v2) < 1
    · have hval : shadeValue (frameSize fb) v0 v1 v2 fsh x y old =
          Pixel.setDepth (fsh (interpolate (pixelBary (frameSize fb) v0 v1 v2 x y) v0 v1 v2))
            (interpDepth (pixelBary (frameSize fb) v0 v1 v2 x y) (screenPoint v0)
              (screenPoint v1) (screenPoint v2)) := by
        simp only [shadeValue, if_pos (And.intro hin hd)]
      refine ⟨old, Framebuffer.mk (fb.data.set (fb.index x y)
        (shadeValue (frameSize fb) v0 v1 v2 fsh x y old)) fb.width fb.height,
        hold, ?_, ?_, rfl, rfl, ?_, ?_⟩
      · simp only [shadePixel, Int.toNat_ofNat, hold, if_pos hin, if_pos hd]
        rw [hval]
        exact fb.write_eq_some hwf hx hy _
      · simp only [Framebuffer.WellFormed, List.length_set]
        exact hwf
      · exact Framebuffer.read_set_same fb hwf hx hy _
      · intro x1 y1 hx1 hne
        exact Framebuffer.read_set_other fb hx hx1 hne _
    · have hval : shadeValue (frameSize fb) v0 v1 v2 fsh x y old = old := by
        simp only [shadeValue]
        rw [if_neg]
        intro h
        exact hd h.2
      refine ⟨old, fb, hold, ?_, hwf, rfl, rfl, ?_, fun _ _ _ _ => rfl⟩
      · simp only [shadePixel, Int.toNat_ofNat, hold, if_pos hin, if_neg hd]
      · rw [hold, hval]
  · have hval : shadeValue (frameSize fb) v0 v1 v2 fsh x y old = old := by
      simp only [shadeValue]
      rw [if_neg]
      intro h
      exact hin h.1
    refine ⟨old, fb, hold, ?_, hwf, rfl, rfl, ?_, fun _ _ _ _ => rfl⟩
    · simp only [shadePixel, if_neg hin]
    · rw [hold, hval]

/-- The inner loop over `x` on the row `y`. -/
theorem rowLoop_spec (v0 v1 v2 : V) (fsh : V → P) (W H : ℕ) {y : ℕ} (hy : y < H) :
    ∀ (n x0 : ℕ) (fb : Framebuffer P), fb.WellFormed → fb.width = W → fb.height = H →
      (0 < n → x0 + n ≤ W) →
      ∃ fb1, forLoop (fun x fb2 => shadePixel v0 v1 v2 fsh x (y : ℤ) fb2) n (x0 : ℤ) fb = some fb1 ∧
        fb1.WellFormed ∧ fb1.width = W ∧ fb1.height = H ∧
        ∀ x1 y1, x1 < W → y1 < H →
          fb1.read x1 y1 =
            if y1 = y ∧ x0 ≤ x1 ∧ x1 < x0 + n then
              (fb.read x1 y1).map (shadeValue (frameSize fb) v0 v1 v2 fsh x1 y1)
            else fb.read x1 y1 := by
  intro n
  induction n with
  | zero =>
    intro x0 fb hwf hw hh _
    refine ⟨fb, rfl, hwf, hw, hh, ?_⟩
    intro x1 y1 _ _
    rw [if_neg (by omega)]
  | succ n ih =>
    intro x0 fb hwf hw hh hb
    have hx0 : x0 < fb.width := by have := hb (Nat.succ_pos n); omega
    have hy0 : y < fb.height := by omega
    obtain ⟨old, fb1, hold, hstep, hwf1, hw1, hh1, hsame, hother⟩ :=
      shadePixel_spec v0 v1 v2 fsh fb hwf hx0 hy0
    obtain ⟨fb2, hloop, hwf2, hw2, hh2, hread⟩ :=
      ih (x0 + 1) fb1 hwf1 (hw1.trans hw) (hh1.trans hh) (fun _ => by have := hb (Nat.succ_pos n); omega)
    have hfs : frameSize fb1 = frameSize fb := by simp only [frameSize, hw1, hh1]
    refine ⟨fb2, ?_, hwf2, hw2, hh2, ?_⟩
    · simp only [forLoop, hstep]
      have hc : ((x0 : ℤ) + 1) = ((x0 + 1 : ℕ) : ℤ) := by push_cast; rfl
      rw [hc]; exact hloop
    · intro x1 y1 hx1 hy1
      rw [hread x1 y1 hx1 hy1, hfs]
      by_cases hc : y1 = y ∧ x0 + 1 ≤ x1 ∧ x1 < x0 + 1 + n
      · have hne : ¬ (x1 = x0 ∧ y1 = y) := by omega
        rw [if_pos hc, if_pos (by omega), hother x1 y1 (by omega) hne]
      · rw [if_neg hc]
        by_cases he : x1 = x0 ∧ y1 = y
        · obtain ⟨rfl, rfl⟩ := he
          rw [if_pos (by omega), hsame, hold]; rfl
        · rw [if_neg (by omega), hother x1 y1 (by omega) he]

/-- The outer loop over `y` with the inner loop over `x`. -/
theorem boxLoop_spec (v0 v1 v2 : V) (fsh : V → P) (W H : ℕ) (n x0 : ℕ)
    (hbx : 0 < n → x0 + n ≤ W) :
    ∀ (m y0 : ℕ) (fb : Framebuffer P), fb.WellFormed → fb.width = W → fb.height = H →
      (0 < m → y0 + m ≤ H) →
      ∃ fb1, forLoop (fun y fb3 =>
            forLoop (fun x fb2 => shadePixel v0 v1 v2 fsh x y fb2) n (x0 : ℤ) fb3)
          m (y0 : ℤ) fb = some fb1 ∧
        fb1.WellFormed ∧ fb1.width = W ∧ fb1.height = H ∧
        ∀ x1 y1, x1 < W → y1 < H →
          fb1.read x1 y1 =
            if (y0 ≤ y1 ∧ y1 < y0 + m) ∧ x0 ≤ x1 ∧ x1 < x0 + n then
              (fb.read x1 y1).map (shadeValue (frameSize fb) v0 v1 v2 fsh x1 y1)
            else fb.read x1 y1 := by
  intro m
  induction m with
  | zero =>
    intro y0 fb hwf hw hh _
    refine ⟨fb, rfl, hwf, hw, hh, ?_⟩
    intro x1 y1 _ _
    rw [if_neg (by omega)]
  | succ m ih =>
    intro y0 fb hwf hw hh hb
    have hy0 : y0 < H := by have := hb (Nat.succ_pos m); omega
    obtain ⟨fb1, hrow, hwf1, hw1, hh1, hread1⟩ :=
      rowLoop_spec v0 v1 v2 fsh W H hy0 n x0 fb hwf hw hh hbx
    obtain ⟨fb2, hloop, hwf2, hw2, hh2, hread2⟩ :=
      ih (y0 + 1) fb1 hwf1 hw1 hh1 (fun _ => by have := hb (Nat.succ_pos m); omega)
    have hfs : frameSize fb1 = frameSize fb := by simp only [frameSize, hw1, hh1, hw, hh]
    refine ⟨fb2, ?_, hwf2, hw2, hh2, ?_⟩
    · simp only [forLoop, hrow]
      have hc : ((y0 : ℤ) + 1) = ((y0 + 1 : ℕ) : ℤ) := by push_cast; rfl
      rw [hc]; exact hloop
    · intro x1 y1 hx1 hy1
      rw [hread2 x1 y1 hx1 hy1, hfs, hread1 x1 y1 hx1 hy1]
      by_cases hx : x0 ≤ x1 ∧ x1 < x0 + n
      · by_cases hya : y1 = y0
        · rw [if_neg (by omega), if_pos (by omega), if_pos (by omega)]
        · by_cases hyb : y0 + 1 ≤ y1 ∧ y1 < y0 + 1 + m
          · rw [if_pos (by omega), if_neg (by omega), if_pos (by omega)]
          · rw [if_neg (by omega), if_neg (by omega), if_neg (by omega)]
      · rw [if_neg (by omega), if_neg (by omega), if_neg (by omega)]

end Loops

end SoftwareRasterizer

/-! ## RasterizeTriangle: the bounding box -/

namespace SoftwareRasterizer

theorem pixel_of_ssc (a b : ℚ) (hb : b ≠ 0) :
    ((a / b - 1 / 2) * 2 * (1 / 2) + 1 / 2) * b = a := by
  field_simp
  ring

theorem castInt_le_of_le {q : ℚ} {k : ℤ} (h : q ≤ (k : ℚ)) : castInt q ≤ k := by
  unfold castInt
  split
  · exact_mod_cast (Int.floor_le q).trans h
  · exact Int.ceil_le.mpr h

theorem lt_castInt_add_one {q : ℚ} {k : ℤ} (hk : 0 ≤ k) (h : (k : ℚ) ≤ q) : k < castInt q + 1 := by
  have hq : (0 : ℚ) ≤ q := le_trans (by exact_mod_cast hk) h
  unfold castInt
  rw [if_pos hq]
  exact Int.lt_add_one_iff.mpr (Int.le_floor.mpr h)

/-- A combination with positive weights of sum `1` lies between the minimum and the
maximum of the three values. -/
theorem combination_bounds {b0 b1 b2 a0 a1 a2 : ℚ} (h0 : 0 < b0) (h1 : 0 < b1) (h2 : 0 < b2)
    (hs : b0 + b1 + b2 = 1) :
    Min.min (Min.min a0 a1) a2 ≤ b0 * a0 + b1 * a1 + b2 * a2 ∧
      b0 * a0 + b1 * a1 + b2 * a2 ≤ Max.max (Max.max a0 a1) a2 := by
  constructor
  · have e0 : Min.min (Min.min a0 a1) a2 ≤ a0 := (min_le_left _ _).trans (min_le_left _ _)
    have e1 : Min.min (Min.min a0 a1) a2 ≤ a1 := (min_le_left _ _).trans (min_le_right _ _)
    have e2 : Min.min (Min.min a0 a1) a2 ≤ a2 := min_le_right _ _
    have := mul_le_mul_of_nonneg_left e0 h0.le
    have := mul_le_mul_of_nonneg_left e1 h1.le
    have := mul_le_mul_of_nonneg_left e2 h2.le
    have e : Min.min (Min.min a0 a1) a2 = (b0 + b1 + b2) * Min.min (Min.min a0 a1) a2 := by
      rw [hs, one_mul]
    rw [e]; linarith
  · have e0 : a0 ≤ Max.max (Max.max a0 a1) a2 := (le_max_left _ _).trans (le_max_left _ _)
    have e1 : a1 ≤ Max.max (Max.max a0 a1) a2 := (le_max_right _ _).trans (le_max_left _ _)
    have e2 : a2 ≤ Max.max (Max.max a0 a1) a2 := le_max_right _ _
    have := mul_le_mul_of_nonneg_left e0 h0.le
    have := mul_le_mul_of_nonneg_left e1 h1.le
    have := mul_le_mul_of_nonneg_left e2 h2.le
    have e : Max.max (Max.max a0 a1) a2 = (b0 + b1 + b2) * Max.max (Max.max a0 a1) a2 := by
      rw [hs, one_mul]
    rw [e]; linarith

/-- One coordinate of the bounding box: a sample between the extreme coordinates
of the triangle belongs to the truncated, expanded and clamped interval. -/
theorem interval_covers {W x : ℕ} (hx : x < W) {lo hi : ℚ}
    (hlo : lo ≤ ((x : ℤ) / (((W : ℤ)) : ℚ) - 1 / 2) * 2)
    (hhi : ((x : ℤ) / (((W : ℤ)) : ℚ) - 1 / 2) * 2 ≤ hi) :
    Max.max (castInt ((lo * (1 / 2) + 1 / 2) * ((W : ℤ) : ℚ))) 0 ≤ (x : ℤ) ∧
      (x : ℤ) < Min.min (castInt ((hi * (1 / 2) + 1 / 2) * ((W : ℤ) : ℚ)) + 1) (W : ℤ) := by
  have hWpos : (0 : ℚ) < ((W : ℤ) : ℚ) := by
    have : 0 < W := by omega
    exact_mod_cast this
  have hkey : ((((x : ℤ) : ℚ) / ((W : ℤ) : ℚ) - 1 / 2) * 2 * (1 / 2) + 1 / 2) * ((W : ℤ) : ℚ)
      = ((x : ℤ) : ℚ) := pixel_of_ssc _ _ hWpos.ne.symm
  have hx0 : (0 : ℤ) ≤ (x : ℤ) := Int.natCast_nonneg x
  constructor
  · apply max_le _ hx0
    apply castInt_le_of_le
    rw [← hkey]
    apply mul_le_mul_of_nonneg_right _ hWpos.le
    linarith
  · apply lt_min
    · apply lt_castInt_add_one hx0
      rw [← hkey]
      apply mul_le_mul_of_nonneg_right _ hWpos.le
      linarith
    · exact_mod_cast hx

/-- The bounding box loses no pixel: an in-range pixel that passes the inside test
lies in `[fixedTopLeft, fixedBottomRight)`. -/
theorem box_covers {V : Type} [VertexVsOut V] (v0 v1 v2 : V) {W H x y : ℕ}
    (hx : x < W) (hy : y < H)
    (hin : inside (pixelBary ⟨(W : ℤ), (H : ℤ)⟩ v0 v1 v2 x y)) :
    ((fixedTopLeft ⟨(W : ℤ), (H : ℤ)⟩ (screenPoint v0).head2 (screenPoint v1).head2
        (screenPoint v2).head2).x ≤ (x : ℤ) ∧
      (x : ℤ) < (fixedBottomRight ⟨(W : ℤ), (H : ℤ)⟩ (screenPoint v0).head2 (screenPoint v1).head2
        (screenPoint v2).head2).x) ∧
    ((fixedTopLeft ⟨(W : ℤ), (H : ℤ)⟩ (screenPoint v0).head2 (screenPoint v1).head2
        (screenPoint v2).head2).y ≤ (y : ℤ) ∧
      (y : ℤ) < (fixedBottomRight ⟨(W : ℤ), (H : ℤ)⟩ (screenPoint v0).head2 (screenPoint v1).head2
        (screenPoint v2).head2).y) := by
  have hdet := inside_det_ne_zero _ _ _ _ hin
  obtain ⟨hcx, hcy⟩ := bary_combination (screenPoint v0).head2 (screenPoint v1).head2
    (screenPoint v2).head2 (ssc ⟨(W : ℤ), (H : ℤ)⟩ x y) hdet
  have hsum := bary_sum (BarycentricTransform.construct (screenPoint v0).head2
    (screenPoint v1).head2 (screenPoint v2).head2) (ssc ⟨(W : ℤ), (H : ℤ)⟩ x y)
  unfold pixelBary at hin
  obtain ⟨-, h0, h1, h2⟩ := hin
  have bx := @combination_bounds _ _ _ (screenPoint v0).head2.x (screenPoint v1).head2.x
    (screenPoint v2).head2.x h0 h1 h2 hsum
  have bY := @combination_bounds _ _ _ (screenPoint v0).head2.y (screenPoint v1).head2.y
    (screenPoint v2).head2.y h0 h1 h2 hsum
  rw [← hcx] at bx
  rw [← hcy] at bY
  exact ⟨interval_covers hx bx.1 bx.2, interval_covers hy bY.1 bY.2⟩

end SoftwareRasterizer

/-! ## RasterizeTriangle: the framebuffer after the call -/

namespace SoftwareRasterizer

section Rasterize

variable {P V : Type} [Pixel P] [VertexVsOut V]

theorem shadeValue_of_not_inside (fs : Array2i) (v0 v1 v2 : V) (fsh : V → P) (x y : ℤ) (old : P)
    (h : ¬ inside (pixelBary fs v0 v1 v2 x y)) : shadeValue fs v0 v1 v2 fsh x y old = old := by
  simp only [shadeValue]
  rw [if_neg]
  intro hc
  exact h hc.1

/-- The function `RasterizeTriangle` is defined on every framebuffer that satisfies the
size invariant; it keeps the sizes and the invariant, and every cell ends with
`shadeValue` of its value before the call. -/
theorem RasterizeTriangle_spec (fb : Framebuffer P) (hwf : fb.WellFormed) (v0 v1 v2 : V)
    (fsh : V → P) :
    ∃ fb1, RasterizeTriangle fb v0 v1 v2 fsh = some fb1 ∧
      fb1.WellFormed ∧ fb1.width = fb.width ∧ fb1.height = fb.height ∧
      ∀ x y, x < fb.width → y < fb.height →
        fb1.read x y = (fb.read x y).map (shadeValue (frameSize fb) v0 v1 v2 fsh x y) := by
  have htlx : 0 ≤ (fixedTopLeft (frameSize fb) (screenPoint v0).head2 (screenPoint v1).head2
      (screenPoint v2).head2).x := le_max_right _ _
  have htly : 0 ≤ (fixedTopLeft (frameSize fb) (screenPoint v0).head2 (screenPoint v1).head2
      (screenPoint v2).head2).y := le_max_right _ _
  have hbrx : (fixedBottomRight (frameSize fb) (screenPoint v0).head2 (screenPoint v1).head2
      (screenPoint v2).head2).x ≤ (fb.width : ℤ) := min_le_right _ _
  have hbry : (fixedBottomRight (frameSize fb) (screenPoint v0).head2 (screenPoint v1).head2
      (screenPoint v2).head2).y ≤ (fb.height : ℤ) := min_le_right _ _
  generalize htl : fixedTopLeft (frameSize fb) (screenPoint v0).head2 (screenPoint v1).head2
      (screenPoint v2).head2 = tl at htlx htly
  generalize hbr : fixedBottomRight (frameSize fb) (screenPoint v0).head2 (screenPoint v1).head2
      (screenPoint v2).head2 = br at hbrx hbry
  have hx0 : tl.x = ((tl.x.toNat : ℕ) : ℤ) := (Int.toNat_of_nonneg htlx).symm
  have hy0 : tl.y = ((tl.y.toNat : ℕ) : ℤ) := (Int.toNat_of_nonneg htly).symm
  obtain ⟨fb1, hrun, hwf1, hw1, hh1, hread⟩ :=
    boxLoop_spec v0 v1 v2 fsh fb.width fb.height (br.x - tl.x).toNat tl.x.toNat
      (fun _ => by omega) (br.y - tl.y).toNat tl.y.toNat fb hwf rfl rfl (fun _ => by omega)
  refine ⟨fb1, ?_, hwf1, hw1, hh1, ?_⟩
  · simp only [RasterizeTriangle, htl, hbr]
    rw [← hx0, ← hy0] at hrun
    exact hrun
  · intro x y hx hy
    rw [hread x y hx hy]
    split
    · rfl
    · rename_i hbox
      obtain ⟨old, hold⟩ := fb.read_isSome hwf hx hy
      rw [hold, Option.map_some', shadeValue_of_not_inside]
      intro hin
      have hcov := box_covers v0 v1 v2 hx hy hin
      simp only [frameSize] at htl hbr
      rw [htl, hbr] at hcov
      omega

end Rasterize

end SoftwareRasterizer

/-! ## Framebuffer: equality from the cells -/

namespace SoftwareRasterizer

end SoftwareRasterizer

/-! ## Claims on Framebuffer and BarycentricTransform -/

namespace SoftwareRasterizer

/-- C4. For a triangle `s1, s2, s3` whose matrix `T = [s1-s3 | s2-s3]` is invertible
(non-zero determinant) and every point `v`, the weights returned by
`BarycentricTransform(s1,s2,s3)(v)` have sum `1` and reproduce `v` as the combination
`b0*s1 + b1*s2 + b2*s3`, in exact arithmetic. -/
theorem C4_barycentric_weights (s1 s2 s3 v : Vector2f)
    (hdet : (BarycentricTransform.T s1 s2 s3).determinant ≠ 0) :
    ∃ b : Vector3f, (BarycentricTransform.construct s1 s2 s3).apply v = b ∧
      b.x + b.y + b.z = 1 ∧
      v.x = b.x * s1.x + b.y * s2.x + b.z * s3.x ∧
      v.y = b.x * s1.y + b.y * s2.y + b.z * s3.y :=
  ⟨_, rfl, bary_sum _ _, bary_combination s1 s2 s3 v hdet⟩

/-- Witness of C4 on the triangle `(2,-2), (-2,2), (-2,-2)` and the point `(-1,-1)`. -/
theorem C4_barycentric_weights_witness :
    (BarycentricTransform.T ⟨2, -2⟩ ⟨-2, 2⟩ ⟨-2, -2⟩).determinant ≠ 0 ∧
    ∃ b : Vector3f,
      (BarycentricTransform.construct ⟨2, -2⟩ ⟨-2, 2⟩ ⟨-2, -2⟩).apply ⟨-1, -1⟩ = b ∧
      b.x + b.y + b.z = 1 ∧
      (-1 : ℚ) = b.x * 2 + b.y * (-2) + b.z * (-2) ∧
      (-1 : ℚ) = b.x * (-2) + b.y * 2 + b.z * (-2) :=
  ⟨by decide!, C4_barycentric_weights ⟨2, -2⟩ ⟨-2, 2⟩ ⟨-2, -2⟩ ⟨-1, -1⟩ (by decide!)⟩

/-- C9. After `clear(v)` every cell `(x, y)` with `x < width` and `y < height` equals `v`,
width and height are unchanged, and `clear(v)` followed by `clear(v)` gives the same
framebuffer as a single `clear(v)`. -/
theorem C9_clear {PixelType : Type} (fb : Framebuffer PixelType) (hwf : fb.WellFormed)
    (v : PixelType) :
    (∀ x y, x < fb.width → y < fb.height → (fb.clear v).read x y = some v) ∧
    (fb.clear v).width = fb.width ∧ (fb.clear v).height = fb.height ∧
    (fb.clear v).clear v = fb.clear v := by
  refine ⟨?_, rfl, rfl, ?_⟩
  · intro x y hx hy
    have hlt : fb.index x y < fb.data.length := by
      rw [hwf]; exact fb.index_lt_size hx hy
    simp only [Framebuffer.read, Framebuffer.clear, Framebuffer.index, List.getElem?_map]
    simp only [Framebuffer.index] at hlt
    rw [List.getElem?_eq_getElem hlt]
    rfl
  · simp only [Framebuffer.clear, List.map_map]
    rfl

/-- Witness of C9 on the constructed 2 by 2 framebuffer and the pixel `(1,0,0,0)`. -/
theorem C9_clear_witness :
    smallFramebuffer.WellFormed ∧
    ((∀ x y, x < smallFramebuffer.width → y < smallFramebuffer.height →
        (smallFramebuffer.clear ⟨⟨1, 0, 0, 0⟩⟩).read x y = some ⟨⟨1, 0, 0, 0⟩⟩) ∧
      (smallFramebuffer.clear ⟨⟨1, 0, 0, 0⟩⟩).width = smallFramebuffer.width ∧
      (smallFramebuffer.clear ⟨⟨1, 0, 0, 0⟩⟩).height = smallFramebuffer.height ∧
      (smallFramebuffer.clear ⟨⟨1, 0, 0, 0⟩⟩).clear ⟨⟨1, 0, 0, 0⟩⟩ =
        smallFramebuffer.clear ⟨⟨1, 0, 0, 0⟩⟩) :=
  ⟨by decide, C9_clear smallFramebuffer (by decide) ⟨⟨1, 0, 0, 0⟩⟩⟩

end SoftwareRasterizer

/-! ## Claims on RasterizeTriangle: depth test and stored value -/

namespace SoftwareRasterizer

end SoftwareRasterizer

/-! ## Claim on the order of two triangles -/

namespace SoftwareRasterizer

end SoftwareRasterizer

/-! ## Claims on the pixels a triangle leaves alone -/

namespace SoftwareRasterizer

end SoftwareRasterizer

/-! ## Claims on unchecked cell access, the sample point and the bounding box -/

namespace SoftwareRasterizer

/-- C16, evaluated on the code. The point `ssc` at which the weights of the pixel `(x, y)`
are evaluated maps forward, by `pixel = (ndc*0.5 + 0.5)*(width, height)`, to `(x, y)`
itself, the corner of the pixel, for every positive frame size; on the 4 by 4 framebuffer
the pixel `(1, 1)`, which the loops visit for the scenario triangle, is sampled at
`(-1/2, -1/2)`, which maps to `(1, 1)` and not to the centre `(3/2, 3/2)`. -/
theorem C16_sample_is_corner :
    (∀ (W H : ℕ) (x y : ℤ), 0 < W → 0 < H →
      toPixelSpace ⟨(W : ℤ), (H : ℤ)⟩ (ssc ⟨(W : ℤ), (H : ℤ)⟩ x y) = ⟨(x : ℚ), (y : ℚ)⟩) ∧
    ((fixedTopLeft (frameSize scenarioFramebuffer)
          (screenPoint (scenarioShader ⟨-1, -1, 0⟩)).head2
          (screenPoint (scenarioShader ⟨1, -1, 0⟩)).head2
          (screenPoint (scenarioShader ⟨0, 1, 0⟩)).head2).x ≤ 1 ∧
      1 < (fixedBottomRight (frameSize scenarioFramebuffer)
          (screenPoint (scenarioShader ⟨-1, -1, 0⟩)).head2
          (screenPoint (scenarioShader ⟨1, -1, 0⟩)).head2
          (screenPoint (scenarioShader ⟨0, 1, 0⟩)).head2).x ∧
      (fixedTopLeft (frameSize scenarioFramebuffer)
          (screenPoint (scenarioShader ⟨-1, -1, 0⟩)).head2
          (screenPoint (scenarioShader ⟨1, -1, 0⟩)).head2
          (screenPoint (scenarioShader ⟨0, 1, 0⟩)).head2).y ≤ 1 ∧
      1 < (fixedBottomRight (frameSize scenarioFramebuffer)
          (screenPoint (scenarioShader ⟨-1, -1, 0⟩)).head2
          (screenPoint (scenarioShader ⟨1, -1, 0⟩)).head2
          (screenPoint (scenarioShader ⟨0, 1, 0⟩)).head2).y) ∧
    ssc (frameSize scenarioFramebuffer) 1 1 = ⟨-1 / 2, -1 / 2⟩ ∧
    toPixelSpace (frameSize scenarioFramebuffer) (ssc (frameSize scenarioFramebuffer) 1 1)
      = ⟨1, 1⟩ ∧
    toPixelSpace (frameSize scenarioFramebuffer) (ssc (frameSize scenarioFramebuffer) 1 1)
      ≠ ⟨1 + 1 / 2, 1 + 1 / 2⟩ := by
  refine ⟨?_, by decide!, by decide!, by decide!, by decide!⟩
  intro W H x y hW hH
  have hWq : ((W : ℤ) : ℚ) ≠ 0 := by
    have : (0 : ℚ) < ((W : ℤ) : ℚ) := by exact_mod_cast hW
    exact this.ne.symm
  have hHq : ((H : ℤ) : ℚ) ≠ 0 := by
    have : (0 : ℚ) < ((H : ℤ) : ℚ) := by exact_mod_cast hH
    exact this.ne.symm
  simp only [toPixelSpace, ssc, Vector2f.mk.injEq]
  exact ⟨pixel_of_ssc _ _ hWq, pixel_of_ssc _ _ hHq⟩

end SoftwareRasterizer

/-! ## Claims on the pixels the loops visit -/

namespace SoftwareRasterizer

/-- C18. The bounding-box clamp makes framebuffer access safe: for a framebuffer satisfying
the size invariant and a triangle with non-zero `w`, every pixel `(x, y)` of the loop
ranges `[fixedTopLeft, fixedBottomRight)` satisfies `0 <= x < width` and `0 <= y < height`,
its position `y*width+x` is below `width*height`, the cell access is inside the storage,
the loop body is defined there, and the whole call is defined. -/
theorem C18_box_in_range {P V : Type} [Pixel P] [VertexVsOut V] (fb : Framebuffer P)
    (hwf : fb.WellFormed) (v0 v1 v2 : V) (fsh : V → P)
    (_hw0 : (VertexVsOut.position v0).w ≠ 0) (_hw1 : (VertexVsOut.position v1).w ≠ 0)
    (_hw2 : (VertexVsOut.position v2).w ≠ 0) (x y : ℤ)
    (hx : (fixedTopLeft (frameSize fb) (screenPoint v0).head2 (screenPoint v1).head2
          (screenPoint v2).head2).x ≤ x ∧
      x < (fixedBottomRight (frameSize fb) (screenPoint v0).head2 (screenPoint v1).head2
          (screenPoint v2).head2).x)
    (hy : (fixedTopLeft (frameSize fb) (screenPoint v0).head2 (screenPoint v1).head2
          (screenPoint v2).head2).y ≤ y ∧
      y < (fixedBottomRight (frameSize fb) (screenPoint v0).head2 (screenPoint v1).head2
          (screenPoint v2).head2).y) :
    (0 ≤ x ∧ x < (fb.width : ℤ)) ∧ (0 ≤ y ∧ y < (fb.height : ℤ)) ∧
    fb.index x.toNat y.toNat < fb.width * fb.height ∧
    (∃ p, fb.read x.toNat y.toNat = some p) ∧
    (∃ fb1, shadePixel v0 v1 v2 fsh x y fb = some fb1) ∧
    ∃ fb2, RasterizeTriangle fb v0 v1 v2 fsh = some fb2 := by
  have htlx : 0 ≤ (fixedTopLeft (frameSize fb) (screenPoint v0).head2 (screenPoint v1).head2
      (screenPoint v2).head2).x := le_max_right _ _
  have htly : 0 ≤ (fixedTopLeft (frameSize fb) (screenPoint v0).head2 (screenPoint v1).head2
      (screenPoint v2).head2).y := le_max_right _ _
  have hbrx : (fixedBottomRight (frameSize fb) (screenPoint v0).head2 (screenPoint v1).head2
      (screenPoint v2).head2).x ≤ (fb.width : ℤ) := min_le_right _ _
  have hbry : (fixedBottomRight (frameSize fb) (screenPoint v0).head2 (screenPoint v1).head2
      (screenPoint v2).head2).y ≤ (fb.height : ℤ) := min_le_right _ _
  have hx0 : 0 ≤ x := htlx.trans hx.1
  have hy0 : 0 ≤ y := htly.trans hy.1
  have hxW : x < (fb.width : ℤ) := lt_of_lt_of_le hx.2 hbrx
  have hyH : y < (fb.height : ℤ) := lt_of_lt_of_le hy.2 hbry
  have hxn : x.toNat < fb.width := by omega
  have hyn : y.toNat < fb.height := by omega
  obtain ⟨old, fb1, hold, hstep, -⟩ := shadePixel_spec v0 v1 v2 fsh fb hwf hxn hyn
  rw [Int.toNat_of_nonneg hx0, Int.toNat_of_nonneg hy0] at hstep
  obtain ⟨fb2, hrun, -⟩ := RasterizeTriangle_spec fb hwf v0 v1 v2 fsh
  exact ⟨⟨hx0, hxW⟩, ⟨hy0, hyH⟩, fb.index_lt_size hxn hyn, ⟨old, hold⟩, ⟨fb1, hstep⟩,
    ⟨fb2, hrun⟩⟩

/-- Witness of C18: the red triangle on the 2 by 2 framebuffer at the pixel `(1, 1)`. -/
theorem C18_box_in_range_witness :
    smallFramebuffer.WellFormed ∧
    (VertexVsOut.position redVert0).w ≠ 0 ∧ (VertexVsOut.position redVert1).w ≠ 0 ∧
    (VertexVsOut.position redVert2).w ≠ 0 ∧
    ((fixedTopLeft (frameSize smallFramebuffer) (screenPoint redVert0).head2
          (screenPoint redVert1).head2 (screenPoint redVert2).head2).x ≤ 1 ∧
      1 < (fixedBottomRight (frameSize smallFramebuffer) (screenPoint redVert0).head2
          (screenPoint redVert1).head2 (screenPoint redVert2).head2).x) ∧
    ((fixedTopLeft (frameSize smallFramebuffer) (screenPoint redVert0).head2
          (screenPoint redVert1).head2 (screenPoint redVert2).head2).y ≤ 1 ∧
      1 < (fixedBottomRight (frameSize smallFramebuffer) (screenPoint redVert0).head2
          (screenPoint redVert1).head2 (screenPoint redVert2).head2).y) ∧
    ((0 ≤ (1 : ℤ) ∧ (1 : ℤ) < (smallFramebuffer.width : ℤ)) ∧
      (0 ≤ (1 : ℤ) ∧ (1 : ℤ) < (smallFramebuffer.height : ℤ)) ∧
      smallFramebuffer.index (1 : ℤ).toNat (1 : ℤ).toNat <
        smallFramebuffer.width * smallFramebuffer.height ∧
      (∃ p, smallFramebuffer.read (1 : ℤ).toNat (1 : ℤ).toNat = some p) ∧
      (∃ fb1, shadePixel redVert0 redVert1 redVert2 fragmentShader 1 1 smallFramebuffer
        = some fb1) ∧
      ∃ fb2, RasterizeTriangle smallFramebuffer redVert0 redVert1 redVert2 fragmentShader
        = some fb2) :=
  ⟨by decide, by decide!, by decide!, by decide!, by decide!, by decide!,
    C18_box_in_range smallFramebuffer (by decide) redVert0 redVert1 redVert2 fragmentShader
      (by decide!) (by decide!) (by decide!) 1 1 (by decide!) (by decide!)⟩

end SoftwareRasterizer

/-! ## RunVertexShader and the vertex-out cache of draw -/

namespace SoftwareRasterizer

theorem take_succ_set {α : Type} (a : α) :
    ∀ (l : List α) (i : ℕ), i < l.length → (l.set i a).take (i + 1) = l.take i ++ [a] := by
  intro l
  induction l with
  | nil => intro i h; simp at h
  | cons b l ih =>
    intro i h
    cases i with
    | zero => simp
    | succ i =>
      simp only [List.set_cons_succ, List.take_succ_cons, List.cons_append, List.cons.injEq,
        true_and]
      exact ih i (by simpa using h)

/-- The loop of `RunVertexShader` from position `i`, on an output array that has room for
the remaining inputs, is defined and replaces the elements from `i` on by the shaded
inputs. -/
theorem runVertexShaderFrom_eq {VIn V : Type} (vs : VIn → V) :
    ∀ (rest : List VIn) (i : ℕ) (out : List V), out.length = i + rest.length →
      runVertexShaderFrom vs rest i out = some (out.take i ++ rest.map vs) := by
  intro rest
  induction rest with
  | nil =>
    intro i out h
    simp only [runVertexShaderFrom, List.map_nil, List.append_nil]
    rw [List.take_of_length_le (by simp at h; omega)]
  | cons v rest ih =>
    intro i out h
    have hi : i < out.length := by simp at h; omega
    simp only [runVertexShaderFrom, if_pos hi]
    rw [ih (i + 1) (out.set i (vs v)) (by simp at h ⊢; omega), take_succ_set _ _ _ hi]
    simp

/-- On an output array of the length of the input, `RunVertexShader` is defined and the
output array becomes the list of the shaded inputs. -/
theorem RunVertexShader_eq_map {VIn V : Type} (input : List VIn) (pOutput : List V)
    (vs : VIn → V) (h : pOutput.length = input.length) :
    RunVertexShader input pOutput vs = some (input.map vs) := by
  simp only [RunVertexShader]
  rw [runVertexShaderFrom_eq vs input 0 pOutput (by omega)]
  simp

/-- The framebuffer side of `draw` is `Rasterize` on the shaded vertices, whatever the
cache. -/
theorem draw_fst {P V VIn : Type} [Pixel P] [VertexVsOut V] (fb : Framebuffer P)
    (vertices : List VIn) (indexBuffer : List ℕ) (vCache : Option (List V))
    (vs : VIn → V) (fsh : V → P) :
    (draw fb vertices indexBuffer vCache vs fsh).1 =
      Rasterize fb indexBuffer (vertices.map vs) fsh := by
  cases vCache with
  | none =>
    simp only [draw]
    rw [RunVertexShader_eq_map _ _ _ (List.length_replicate _ _)]
  | some cache =>
    simp only [draw]
    by_cases hlen : cache.length = vertices.length
    · rw [if_neg (not_not.mpr hlen), RunVertexShader_eq_map _ _ _ hlen]
    · rw [if_pos hlen, RunVertexShader_eq_map _ _ _ (List.length_replicate _ _)]

/-- C12. Vertex-out cache resolution in `draw`: on an output array of the length of the
input, `RunVertexShader` produces `outputs[i] = vertexShader(vertices[i])` for every `i`;
a supplied cache whose length equals the number of input vertices holds these outputs
after `draw`; a supplied cache of another length, or an absent one, is left unchanged;
and in all cases the triangles are rasterized from the array of the `vertices.length`
outputs `vertexShader(vertices[i])`. -/
theorem C12_draw_cache {P V VIn : Type} [Pixel P] [VertexVsOut V] (fb : Framebuffer P)
    (vertices : List VIn) (indexBuffer : List ℕ) (vCache : Option (List V))
    (vs : VIn → V) (fsh : V → P) :
    (∀ pOutput : List V, pOutput.length = vertices.length →
      ∃ outputs : List V, RunVertexShader vertices pOutput vs = some outputs ∧
        outputs.length = vertices.length ∧
        ∀ (i : ℕ) (v : VIn), vertices[i]? = some v → outputs[i]? = some (vs v)) ∧
    (∀ cache, vCache = some cache → cache.length = vertices.length →
      (draw fb vertices indexBuffer vCache vs fsh).2 = some (vertices.map vs)) ∧
    (∀ cache, vCache = some cache → cache.length ≠ vertices.length →
      (draw fb vertices indexBuffer vCache vs fsh).2 = some cache) ∧
    (vCache = none → (draw fb vertices indexBuffer vCache vs fsh).2 = none) ∧
    (vertices.map vs).length = vertices.length ∧
    (draw fb vertices indexBuffer vCache vs fsh).1 =
      Rasterize fb indexBuffer (vertices.map vs) fsh := by
  refine ⟨?_, ?_, ?_, ?_, List.length_map _ _, draw_fst fb vertices indexBuffer vCache vs fsh⟩
  · intro pOutput hlen
    refine ⟨vertices.map vs, RunVertexShader_eq_map _ _ _ hlen, List.length_map _ _, ?_⟩
    intro i v hv
    rw [List.getElem?_map, hv]
    rfl
  · intro cache hc hlen
    subst hc
    simp only [draw]
    rw [if_neg (not_not.mpr hlen), RunVertexShader_eq_map _ _ _ hlen]
  · intro cache hc hlen
    subst hc
    simp only [draw]
    rw [if_pos hlen, RunVertexShader_eq_map _ _ _ (List.length_replicate _ _)]
  · intro hc
    subst hc
    simp only [draw]
    rw [RunVertexShader_eq_map _ _ _ (List.length_replicate _ _)]

end SoftwareRasterizer

/-! ## Rasterize: the loop over the index buffer -/

namespace SoftwareRasterizer

section RasterizeLoop

variable {P V : Type} [Pixel P] [VertexVsOut V]

/-- An iteration of `Rasterize` whose behaviour is undefined has not touched the
framebuffer. -/
theorem rasterizeStep_undefined (ib : List ℕ) (verts : List V) (fsh : V → P) (i : ℕ)
    (fb fb1 : Framebuffer P) (f : Fault)
    (h : rasterizeStep ib verts fsh i fb = .undefined f fb1) : fb1 = fb := by
  simp only [rasterizeStep] at h
  split at h
  · injection h with _ h2; exact h2.symm
  · split at h
    · injection h with _ h2; exact h2.symm
    · split at h
      · injection h with _ h2; exact h2.symm
      · split at h
        · injection h with _ h2; exact h2.symm
        · split at h
          · injection h with _ h2; exact h2.symm
          · split at h
            · injection h with _ h2; exact h2.symm
            · split at h
              · injection h with _ h2; exact h2.symm
              · cases h

/-- An iteration of `Rasterize` that ends normally has rasterized one triangle. -/
theorem rasterizeStep_done (ib : List ℕ) (verts : List V) (fsh : V → P) (i : ℕ)
    (fb fb1 : Framebuffer P) (h : rasterizeStep ib verts fsh i fb = .done fb1) :
    ∃ a b c v0 v1 v2, ib[i]? = some a ∧ ib[i + 1]? = some b ∧ ib[i + 2]? = some c ∧
      verts[a]? = some v0 ∧ verts[b]? = some v1 ∧ verts[c]? = some v2 ∧
      RasterizeTriangle fb v0 v1 v2 fsh = some fb1 := by
  simp only [rasterizeStep] at h
  split at h
  · cases h
  · rename_i a ha
    split at h
    · cases h
    · rename_i v0 hv0
      split at h
      · cases h
      · rename_i b hb
        split at h
        · cases h
        · rename_i v1 hv1
          split at h
          · cases h
          · rename_i c hc
            split at h
            · cases h
            · rename_i v2 hv2
              split at h
              · cases h
              · rename_i fb2 hr
                injection h with h1
                subst h1
                exact ⟨a, b, c, v0, v1, v2, ha, hb, hc, hv0, hv1, hv2, hr⟩

/-- An iteration whose three index reads and three vertex reads are inside the arrays
rasterizes the triangle. -/
theorem rasterizeStep_eq (ib : List ℕ) (verts : List V) (fsh : V → P) (i : ℕ)
    (fb fb1 : Framebuffer P) {a b c : ℕ} {v0 v1 v2 : V}
    (ha : ib[i]? = some a) (hb : ib[i + 1]? = some b) (hc : ib[i + 2]? = some c)
    (hv0 : verts[a]? = some v0) (hv1 : verts[b]? = some v1) (hv2 : verts[c]? = some v2)
    (hr : RasterizeTriangle fb v0 v1 v2 fsh = some fb1) :
    rasterizeStep ib verts fsh i fb = .done fb1 := by
  simp only [rasterizeStep, ha, hb, hc, hv0, hv1, hv2, hr]

end RasterizeLoop

end SoftwareRasterizer

/-! ## Claims on the index buffer -/

namespace SoftwareRasterizer

section IndexBuffer

variable {P V : Type} [Pixel P] [VertexVsOut V]

theorem lt_length_of_getElem?_eq_some {α : Type} {l : List α} {i : ℕ} {a : α}
    (h : l[i]? = some a) : i < l.length := by
  obtain ⟨hlt, -⟩ := List.getElem?_eq_some_iff.mp h
  exact hlt

/-- Iterations that reach an entry which is not below the number of vertex-out values
have undefined behaviour at the read of `verts` with the first such entry. -/
theorem rasterizeLoop_bad_entry (ib : List ℕ) (verts : List V) (fsh : V → P) :
    ∀ (k i : ℕ) (fb : Framebuffer P), fb.WellFormed →
      (∃ j e, i ≤ j ∧ j < i + 3 * k ∧ ib[j]? = some e ∧ verts.length ≤ e) →
      ∃ e fb1, e ∈ ib ∧ verts.length ≤ e ∧
        rasterizeLoop ib verts fsh k i fb = .undefined (.vertexRead e) fb1 := by
  intro k
  induction k with
  | zero =>
    rintro i fb - ⟨j, e, h1, h2, -⟩
    omega
  | succ k ih =>
    rintro i fb hwf ⟨j, e, hij, hjk, hje, hbad⟩
    have hjlt := lt_length_of_getElem?_eq_some hje
    cases ha : ib[i]? with
    | none =>
      have := List.getElem?_eq_none_iff.mp ha
      omega
    | some a =>
      cases hv0 : verts[a]? with
      | none =>
        refine ⟨a, fb, List.getElem?_mem ha, List.getElem?_eq_none_iff.mp hv0, ?_⟩
        simp only [rasterizeLoop, rasterizeStep, ha, hv0]
      | some v0 =>
        have hj0 : j ≠ i := by
          rintro rfl
          rw [ha] at hje
          injection hje with hje
          subst hje
          have := lt_length_of_getElem?_eq_some hv0
          omega
        cases hb : ib[i + 1]? with
        | none =>
          have := List.getElem?_eq_none_iff.mp hb
          omega
        | some b =>
          cases hv1 : verts[b]? with
          | none =>
            refine ⟨b, fb, List.getElem?_mem hb, List.getElem?_eq_none_iff.mp hv1, ?_⟩
            simp only [rasterizeLoop, rasterizeStep, ha, hv0, hb, hv1]
          | some v1 =>
            have hj1 : j ≠ i + 1 := by
              rintro rfl
              rw [hb] at hje
              injection hje with hje
              subst hje
              have := lt_length_of_getElem?_eq_some hv1
              omega
            cases hc : ib[i + 2]? with
            | none =>
              have := List.getElem?_eq_none_iff.mp hc
              omega
            | some c =>
              cases hv2 : verts[c]? with
              | none =>
                refine ⟨c, fb, List.getElem?_mem hc, List.getElem?_eq_none_iff.mp hv2, ?_⟩
                simp only [rasterizeLoop, rasterizeStep, ha, hv0, hb, hv1, hc, hv2]
              | some v2 =>
                have hj2 : j ≠ i + 2 := by
                  rintro rfl
                  rw [hc] at hje
                  injection hje with hje
                  subst hje
                  have := lt_length_of_getElem?_eq_some hv2
                  omega
                obtain ⟨fb1, hrun, hwf1, -⟩ := RasterizeTriangle_spec fb hwf v0 v1 v2 fsh
                have hstep := rasterizeStep_eq ib verts fsh i fb fb1 ha hb hc hv0 hv1 hv2 hrun
                obtain ⟨e1, fb2, he1, hbad1, hloop⟩ :=
                  ih (i + 3) fb1 hwf1 ⟨j, e, by omega, by omega, hje, hbad⟩
                refine ⟨e1, fb2, he1, hbad1, ?_⟩
                simp only [rasterizeLoop, hstep]
                exact hloop

/-- Counterexample to C14 as stated: `draw` with the six vertices of `main` and the index
buffer `0, 1, 2, 3, 4, 100` raises no error; it rasterizes the first triangle and then
reads the vertex-out value of index 100, outside the array of six. -/
theorem C14_index_100_counterexample :
    mainVertices.length = 6 ∧
    (draw scenarioFramebuffer mainVertices [0, 1, 2, 3, 4, 100] none scenarioShader
        fragmentShader).1 =
      .undefined (.vertexRead 100)
        ⟨[default, default, default, default,
          default, default, default, default,
          default, default, ⟨⟨1, 0, 0, 0⟩⟩, default,
          default, default, default, default], 4, 4⟩ := by
  decide!

/-- C14, as amended. `draw` makes no range check of the index-buffer entries and raises no
error: in every draw call in which some index-buffer entry is not below the number of
input vertices, rasterization proceeds until such an entry `e` is used to read the
vertex-out value `verts[e]` outside the array, where the behaviour becomes undefined. -/
theorem C14_unchecked_index {VIn : Type} (fb : Framebuffer P) (hwf : fb.WellFormed)
    (vertices : List VIn) (ib : List ℕ) (vCache : Option (List V)) (vs : VIn → V)
    (fsh : V → P) (hbad : ∃ e ∈ ib, vertices.length ≤ e) :
    ∃ e fb1, e ∈ ib ∧ vertices.length ≤ e ∧ (vertices.map vs)[e]? = none ∧
      (draw fb vertices ib vCache vs fsh).1 = .undefined (.vertexRead e) fb1 := by
  obtain ⟨e, hmem, hge⟩ := hbad
  obtain ⟨j, hj, hje⟩ := List.getElem_of_mem hmem
  have hje1 : ib[j]? = some e := by rw [List.getElem?_eq_getElem hj, hje]
  obtain ⟨e1, fb1, he1, hbad1, hloop⟩ :=
    rasterizeLoop_bad_entry ib (vertices.map vs) fsh ((ib.length + 2) / 3) 0 fb hwf
      ⟨j, e, by omega, by omega, hje1, by simpa using hge⟩
  refine ⟨e1, fb1, he1, by simpa using hbad1, List.getElem?_eq_none hbad1, ?_⟩
  rw [draw_fst]
  exact hloop

/-- Witness of the amended C14: the six vertices of `main` and the index buffer
`0, 1, 2, 3, 4, 100`. -/
theorem C14_unchecked_index_witness :
    scenarioFramebuffer.WellFormed ∧
    (∃ e ∈ ([0, 1, 2, 3, 4, 100] : List ℕ), mainVertices.length ≤ e) ∧
    ∃ e fb1, e ∈ ([0, 1, 2, 3, 4, 100] : List ℕ) ∧ mainVertices.length ≤ e ∧
      (mainVertices.map scenarioShader)[e]? = none ∧
      (draw scenarioFramebuffer mainVertices [0, 1, 2, 3, 4, 100]
          (none : Option (List TeapotVertVsOut)) scenarioShader fragmentShader).1
        = .undefined (.vertexRead e) fb1 :=
  ⟨by decide, ⟨100, by decide, by decide⟩,
    C14_unchecked_index scenarioFramebuffer (by decide) mainVertices [0, 1, 2, 3, 4, 100] none
      scenarioShader fragmentShader ⟨100, by decide, by decide⟩⟩

/-- C17, evaluated on the code. On the index buffer `0, 1, 2, 0` of length `n = 4`,
`Rasterize` rasterizes the triple `0, 1, 2` and then makes a second iteration with
`i = 3`, which reads `ti[1]` at the position 4 of the index buffer, outside its 4
entries: the trailing index is not ignored and a position `>= n` is read. -/
theorem C17_partial_triple_overrun :
    ([0, 1, 2, 0] : List ℕ).length = 4 ∧ redVerts.length = 3 ∧
    Rasterize smallFramebuffer [0, 1, 2, 0] redVerts fragmentShader =
      .undefined (.indexRead 4)
        ⟨[⟨⟨1, 0, 0, 0⟩⟩, ⟨⟨1, 0, 0, 0⟩⟩, ⟨⟨1, 0, 0, 0⟩⟩, default], 2, 2⟩ ∧
    Rasterize smallFramebuffer [0, 1, 2] redVerts fragmentShader =
      .done ⟨[⟨⟨1, 0, 0, 0⟩⟩, ⟨⟨1, 0, 0, 0⟩⟩, ⟨⟨1, 0, 0, 0⟩⟩, default], 2, 2⟩ := by
  decide!

end IndexBuffer

end SoftwareRasterizer

/-! ## Claims on depth monotonicity and constant attributes -/

namespace SoftwareRasterizer

section Depth

variable {P V : Type} [Pixel P] [VertexVsOut V]

theorem depthGrows_refl (p : P) : depthGrows p p :=
  ⟨le_refl _, fun h => absurd rfl h⟩

theorem depthGrows_trans {a b c : P} (hab : depthGrows a b) (hbc : depthGrows b c) :
    depthGrows a c := by
  refine ⟨hab.1.trans hbc.1, ?_⟩
  intro hca
  by_cases hcb : c = b
  · subst hcb
    exact hab.2 hca
  · obtain ⟨h1, h2⟩ := hbc.2 hcb
    exact ⟨lt_of_le_of_lt hab.1 h1, h2⟩

theorem depthGrows_shadeValue (fs : Array2i) (v0 v1 v2 : V) (fsh : V → P) (x y : ℤ) (old : P) :
    depthGrows old (shadeValue fs v0 v1 v2 fsh x y old) := by
  simp only [shadeValue]
  split
  · rename_i h
    refine ⟨?_, fun _ => ?_⟩
    · rw [Pixel.depth_setDepth]; exact h.2.1.le
    · rw [Pixel.depth_setDepth]; exact h.2
  · exact depthGrows_refl old

theorem Framebuffer.DepthGrows.refl (fb : Framebuffer P) (hwf : fb.WellFormed) :
    fb.DepthGrows fb := by
  refine ⟨hwf, rfl, rfl, ?_⟩
  intro x y hx hy
  obtain ⟨old, hold⟩ := fb.read_isSome hwf hx hy
  exact ⟨old, old, hold, hold, depthGrows_refl old⟩

theorem Framebuffer.DepthGrows.trans {fb fb1 fb2 : Framebuffer P} (h1 : fb.DepthGrows fb1)
    (h2 : fb1.DepthGrows fb2) : fb.DepthGrows fb2 := by
  obtain ⟨-, hw1, hh1, hc1⟩ := h1
  obtain ⟨hwf2, hw2, hh2, hc2⟩ := h2
  refine ⟨hwf2, hw2.trans hw1, hh2.trans hh1, ?_⟩
  intro x y hx hy
  obtain ⟨a, b, ha, hb, hab⟩ := hc1 x y hx hy
  obtain ⟨b1, c, hb1, hc, hbc⟩ := hc2 x y (by omega) (by omega)
  rw [hb] at hb1
  injection hb1 with hb1
  subst hb1
  exact ⟨a, c, ha, hc, depthGrows_trans hab hbc⟩

/-- A call of `RasterizeTriangle` is defined and lets the depth of every cell grow. -/
theorem RasterizeTriangle_depthGrows (fb : Framebuffer P) (hwf : fb.WellFormed) (v0 v1 v2 : V)
    (fsh : V → P) :
    ∃ fb1, RasterizeTriangle fb v0 v1 v2 fsh = some fb1 ∧ fb.DepthGrows fb1 := by
  obtain ⟨fb1, hrun, hwf1, hw1, hh1, hread⟩ := RasterizeTriangle_spec fb hwf v0 v1 v2 fsh
  refine ⟨fb1, hrun, hwf1, hw1, hh1, ?_⟩
  intro x y hx hy
  obtain ⟨old, hold⟩ := fb.read_isSome hwf hx hy
  refine ⟨old, _, hold, ?_, depthGrows_shadeValue (frameSize fb) v0 v1 v2 fsh x y old⟩
  rw [hread x y hx hy, hold]
  rfl

/-- The iterations of `Rasterize` let the depth of every cell grow, up to their end or up
to the access at which their behaviour becomes undefined. -/
theorem rasterizeLoop_depthGrows (ib : List ℕ) (verts : List V) (fsh : V → P) :
    ∀ (k i : ℕ) (fb : Framebuffer P), fb.WellFormed →
      fb.DepthGrows (rasterizeLoop ib verts fsh k i fb).framebuffer := by
  intro k
  induction k with
  | zero =>
    intro i fb hwf
    exact Framebuffer.DepthGrows.refl fb hwf
  | succ k ih =>
    intro i fb hwf
    rw [rasterizeLoop]
    cases hs : rasterizeStep ib verts fsh i fb with
    | undefined f fb1 =>
      have := rasterizeStep_undefined ib verts fsh i fb fb1 f hs
      subst this
      exact Framebuffer.DepthGrows.refl fb1 hwf
    | done fb1 =>
      obtain ⟨a, b, c, v0, v1, v2, -, -, -, -, -, -, hr⟩ :=
        rasterizeStep_done ib verts fsh i fb fb1 hs
      obtain ⟨fb2, hr2, hgrow⟩ := RasterizeTriangle_depthGrows fb hwf v0 v1 v2 fsh
      rw [hr] at hr2
      injection hr2 with hr2
      subst hr2
      exact hgrow.trans (ih (i + 3) fb1 hgrow.1)

/-- C20. Depth is monotone: on a framebuffer satisfying the size invariant,
`RasterizeTriangle` is defined, and after it, after a sequential `Rasterize` and after
`draw` (for every index buffer, vertex-out array, vertex buffer, cache and shaders; up to
the end of the call or to the access at which its behaviour becomes undefined) every
pixel's depth is `>=` its depth before the call, and every pixel whose value was changed
has a depth strictly greater than before and strictly less than `1`. -/
theorem C20_depth_monotone {VIn : Type} (fb : Framebuffer P) (hwf : fb.WellFormed)
    (v0 v1 v2 : V) (fsh : V → P) (ib : List ℕ) (verts : List V) (vertices : List VIn)
    (vCache : Option (List V)) (vs : VIn → V) :
    (∃ fb1, RasterizeTriangle fb v0 v1 v2 fsh = some fb1) ∧
    ∀ fb1 : Framebuffer P,
      (RasterizeTriangle fb v0 v1 v2 fsh = some fb1 ∨
        (Rasterize fb ib verts fsh).framebuffer = fb1 ∨
        (draw fb vertices ib vCache vs fsh).1.framebuffer = fb1) →
      ∀ x y, x < fb.width → y < fb.height →
        ∃ old new, fb.read x y = some old ∧ fb1.read x y = some new ∧
          Pixel.depth old ≤ Pixel.depth new ∧
          (new ≠ old → Pixel.depth old < Pixel.depth new ∧ Pixel.depth new < 1) := by
  obtain ⟨fbt, hrun, hgrow⟩ := RasterizeTriangle_depthGrows fb hwf v0 v1 v2 fsh
  refine ⟨⟨fbt, hrun⟩, ?_⟩
  intro fb1 hsrc
  have hg : fb.DepthGrows fb1 := by
    rcases hsrc with h | h | h
    · rw [hrun] at h
      injection h with h
      subst h
      exact hgrow
    · rw [← h]
      exact rasterizeLoop_depthGrows ib verts fsh _ 0 fb hwf
    · rw [← h, draw_fst]
      exact rasterizeLoop_depthGrows ib (vertices.map vs) fsh _ 0 fb hwf
  exact hg.2.2.2

/-- Witness of C20: the red triangle, then the blue one through `Rasterize`, on the 2 by 2
framebuffer. -/
theorem C20_depth_monotone_witness :
    smallFramebuffer.WellFormed ∧
    ((∃ fb1, RasterizeTriangle smallFramebuffer redVert0 redVert1 redVert2 fragmentShader
        = some fb1) ∧
    ∀ fb1 : Framebuffer TeapotPixel,
      (RasterizeTriangle smallFramebuffer redVert0 redVert1 redVert2 fragmentShader = some fb1 ∨
        (Rasterize smallFramebuffer [0, 1, 2, 3, 4, 5] sixVerts fragmentShader).framebuffer
          = fb1 ∨
        (draw smallFramebuffer mainVertices [0, 1, 2, 3, 4, 5]
          (none : Option (List TeapotVertVsOut)) scenarioShader fragmentShader).1.framebuffer
          = fb1) →
      ∀ x y, x < smallFramebuffer.width → y < smallFramebuffer.height →
        ∃ old new, smallFramebuffer.read x y = some old ∧ fb1.read x y = some new ∧
          Pixel.depth old ≤ Pixel.depth new ∧
          (new ≠ old → Pixel.depth old < Pixel.depth new ∧ Pixel.depth new < 1)) :=
  ⟨by decide,
    C20_depth_monotone smallFramebuffer (by decide) redVert0 redVert1 redVert2 fragmentShader
      [0, 1, 2, 3, 4, 5] sixVerts mainVertices none scenarioShader⟩

end Depth

end SoftwareRasterizer

/-! ## Claim on constant attributes -/

namespace SoftwareRasterizer

end SoftwareRasterizer
